import Mathlib

/-!
Verification of the channel module of the disco library
(src/disco/types/channel.py): the permission resolver
(Channel.get_permissions) and the message paginator (MessageIterator),
plus the message-delete batching policy (Channel.delete_messages).

Machine integers do not occur: permission bitmasks are arbitrary-precision
Python ints, modelled as Nat with bitwise operations; snowflake ids are
modelled as Nat.  Remote collaborators (the API client, the guild member
and base-permission lookups) are passed in explicitly as parameters.
-/

/-- Python truthiness of an optional integer field: None is falsy and the
integer 0 is falsy, every other integer is truthy.  This is the semantics
of the tests `if not self.guild_id:` and `any((before, after))` in the
source. -/
def pyTruthy : Option Nat → Bool
  | none => false
  | some n => n != 0

/-- Modelled from the spec: the administrator permission bit of the
collaborator permission module (disco.types.permissions, not under src/);
the spec calls it the full/administrator-level permission granted on
non-guild channels. -/
def ADMINISTRATOR : Nat := 8

/-- Modelled from the spec: PermissionValue subtraction (`base -= ow.deny`)
removes the denied bits from the bitmask: the bits common to base and deny
are subtracted out, leaving base AND NOT deny. -/
def pvSub (base deny : Nat) : Nat := base - Nat.land base deny

/-- Modelled from the spec: PermissionValue addition (`base += ow.allow`)
adds the allowed bits to the bitmask. -/
def pvAdd (base allow : Nat) : Nat := Nat.lor base allow

/-- Overwrite target kind tag (PermissionOverwriteType: ROLE or MEMBER). -/
inductive OverwriteType where
  | role
  | member
deriving DecidableEq, Repr

/-- A channel permission overwrite (class PermissionOverwrite): target id,
target kind, allow bitmask, deny bitmask. -/
structure PermissionOverwrite where
  id : Nat
  type : OverwriteType
  allow : Nat
  deny : Nat
deriving DecidableEq, Repr

/-- The fields of a Channel that the permission resolver reads: the channel
id, the optional guild id, and the overwrites.  The source stores the
overwrites as a dict keyed by id; the list here is the dict's values in
iteration order. -/
structure Channel where
  id : Nat
  guild_id : Option Nat
  overwrites : List PermissionOverwrite
deriving DecidableEq, Repr

/-- One iteration of the overwrite loop in Channel.get_permissions: the
overwrite is skipped (`continue`) unless its id equals the user's id or is
one of the member's role ids; otherwise `base -= ow.deny; base += ow.allow`. -/
def applyOverwrite (user_id : Nat) (roles : List Nat) (base : Nat)
    (ow : PermissionOverwrite) : Nat :=
  if ow.id != user_id && !(roles.contains ow.id) then base
  else pvAdd (pvSub base ow.deny) ow.allow

/-- Channel.get_permissions.  `roles` is the member's role-id set and
`base` the guild base bitmask, both fetched from the external guild
collaborator in the source.  `if not self.guild_id:` is Python truthiness:
an absent guild id and a guild id equal to 0 both take the administrator
shortcut. -/
def get_permissions (ch : Channel) (user_id : Nat) (roles : List Nat)
    (base : Nat) : Nat :=
  if !(pyTruthy ch.guild_id) then ADMINISTRATOR
  else ch.overwrites.foldl (applyOverwrite user_id roles) base

/-! Message paginator (class MessageIterator). -/

/-- MessageIterator.Direction: UP walks toward older messages, DOWN toward
newer ones. -/
inductive Direction where
  | up
  | down
deriving DecidableEq, Repr

/-- The mutable state of a MessageIterator: direction, bulk flag, the two
cursors, the chunk size and the internal buffer (field `_buffer`).
Messages are modelled by their snowflake ids.  The `client`, `channel` and
unused `last` fields of the source are omitted: the remote channel history
is passed to each operation explicitly. -/
structure MessageIterator where
  direction : Direction
  bulk : Bool
  before : Option Nat
  after : Option Nat
  chunk_size : Nat
  buffer : List Nat
deriving DecidableEq, Repr

/-- MessageIterator.__init__: raises when direction is DOWN and
`any((before, after))` is false, i.e. when both cursors are absent or zero
(Python truthiness).  On success the buffer starts empty. -/
def MessageIterator.mkIter (direction : Direction) (bulk : Bool)
    (before after : Option Nat) (chunk_size : Nat) :
    Except String MessageIterator :=
  if !(pyTruthy before || pyTruthy after) && direction == Direction.down then
    .error "Must specify either before or after for downward seeking"
  else
    .ok ⟨direction, bulk, before, after, chunk_size, []⟩

/-- Modelled from the spec: the collaborator API call
channels_messages_list (disco.api, not under src/).  `hist` is the channel
history oldest-to-newest with time-sortable ids.  The page is filtered by
the cursors and returned newest-first; with an `after` cursor the window is
anchored at the oldest end (the page just after the cursor), otherwise at
the newest end, matching the spec's pagination examples. -/
def channels_messages_list (hist : List Nat) (before after : Option Nat)
    (limit : Nat) : List Nat :=
  let filtered := hist.filter (fun m =>
    (match before with
     | none => true
     | some b => decide (m < b)) &&
    (match after with
     | none => true
     | some a => decide (a < m)))
  match after with
  | some _ => (filtered.take limit).reverse
  | none => filtered.reverse.take limit

/-- MessageIterator.fill.  The fetched page is stored into the buffer; an
empty page raises StopIteration (the error value carries the object state
at the raise).  Otherwise both cursors are cleared and then: UP assigns
`before = buffer[-1].id`; DOWN reverses the buffer in place and evaluates
`self.after == self._buffer[-1].id`, a comparison that assigns nothing. -/
def MessageIterator.fill (hist : List Nat) (st : MessageIterator) :
    Except MessageIterator MessageIterator :=
  let page := channels_messages_list hist st.before st.after st.chunk_size
  if page.isEmpty then
    .error { st with buffer := page }
  else
    match st.direction with
    | Direction.up =>
        .ok { st with
              buffer := page
              after := none
              before := some (page.getLast?.getD 0) }
    | Direction.down =>
        .ok { st with
              buffer := page.reverse
              after := none
              before := none }

/-- One value produced by MessageIterator.__next__: a whole buffer when
`bulk` is set, a single message otherwise. -/
inductive Yield where
  | batch (msgs : List Nat)
  | one (m : Nat)
deriving DecidableEq, Repr

/-- MessageIterator.__next__: refill the buffer when it is empty
(propagating StopIteration); then either hand the whole buffer over and
empty it (bulk), or pop the last element of the buffer. -/
def MessageIterator.next (hist : List Nat) (st : MessageIterator) :
    Except MessageIterator (Yield × MessageIterator) :=
  match (if st.buffer.isEmpty then st.fill hist else .ok st) with
  | .error e => .error e
  | .ok st' =>
      if st'.bulk then
        .ok (Yield.batch st'.buffer, { st' with buffer := [] })
      else
        match st'.buffer.getLast? with
        | some m => .ok (Yield.one m, { st' with buffer := st'.buffer.dropLast })
        | none => .error st'

/-- Drive the iterator with the given fuel, collecting every yielded value
until StopIteration.  `some l` means the iteration terminated within the
fuel; `none` means the fuel ran out first. -/
def runYields (hist : List Nat) : Nat → MessageIterator → Option (List Yield)
  | 0, _ => none
  | fuel + 1, st =>
      match st.next hist with
      | .error _ => some []
      | .ok (y, st') => (runYields hist fuel st').map (fun l => y :: l)

/-- Number of messages carried by one yield. -/
def yieldCount : Yield → Nat
  | Yield.batch msgs => msgs.length
  | Yield.one _ => 1

/-- Total number of messages across a run's yields. -/
def totalCount (l : List Yield) : Nat := (l.map yieldCount).sum

/-! Message deletion batching (Channel.delete_messages). -/

/-- Fuel-driven worker for chunksOf: each round takes one page of n
elements off the front.  The fuel starts at the list length, which is
enough rounds for every positive n. -/
def chunksGo {α : Type} (n : Nat) : Nat → List α → List (List α)
  | _, [] => []
  | 0, l => [l]
  | fuel + 1, x :: xs => ((x :: xs).take n) :: chunksGo n fuel ((x :: xs).drop n)

/-- Modelled from the spec: the chunks helper (disco.util.functional, not
under src/) partitions a list into consecutive pages of at most n
elements. -/
def chunksOf {α : Type} (n : Nat) (l : List α) : List (List α) :=
  chunksGo n l.length l

/-- One remote API call issued by Channel.delete_messages: a single-message
delete (channels_messages_delete) or a bulk delete
(channels_messages_delete_bulk). -/
inductive ApiCall where
  | delete (channel_id message_id : Nat)
  | deleteBulk (channel_id : Nat) (message_ids : List Nat)
deriving DecidableEq, Repr

/-- Channel.delete_messages, as the trace of API calls it issues.  `msgs`
is the argument list already converted to snowflake ids.  An empty list
issues nothing; up to 2 messages issue one single-delete call each;
otherwise the list is cut into chunks of 100 and one bulk-delete call is
issued per chunk. -/
def delete_messages (channel_id : Nat) (msgs : List Nat) : List ApiCall :=
  if msgs.isEmpty then []
  else if msgs.length ≤ 2 then
    msgs.map (fun m => ApiCall.delete channel_id m)
  else
    (chunksOf 100 msgs).map (fun c => ApiCall.deleteBulk channel_id c)

/-! Permission resolver: claims C1, C4 and C9. -/

/-- C1 counterexample: a channel whose guild_id is present but equal to 0
is sent through the administrator shortcut (`if not self.guild_id:` treats
the integer 0 as falsy), so get_permissions does not return the overwrite
fold: with base 1 and a single matching overwrite denying bit 1, the fold
yields 0 while get_permissions yields the ADMINISTRATOR bit 8. -/
theorem C1_counterexample :
    (Channel.mk 1 (some 0) [⟨7, OverwriteType.member, 0, 1⟩]).guild_id.isSome = true ∧
    get_permissions ⟨1, some 0, [⟨7, OverwriteType.member, 0, 1⟩]⟩ 7 [] 1 ≠
      List.foldl (applyOverwrite 7 []) 1
        (Channel.mk 1 (some 0) [⟨7, OverwriteType.member, 0, 1⟩]).overwrites := by
  refine ⟨rfl, ?_⟩
  decide

/-- C1 amended: for every guild channel whose guild_id is truthy (present
and non-zero), get_permissions is exactly the fold of the matching
overwrites' deny-then-allow steps over the guild base bitmask, and with
zero overwrites it returns the base unchanged. -/
theorem C1_guild_fold (ch : Channel) (user_id : Nat) (roles : List Nat)
    (base : Nat) (h : pyTruthy ch.guild_id = true) :
    get_permissions ch user_id roles base =
      ch.overwrites.foldl (applyOverwrite user_id roles) base ∧
    (ch.overwrites = [] → get_permissions ch user_id roles base = base) := by
  have hmain : get_permissions ch user_id roles base =
      ch.overwrites.foldl (applyOverwrite user_id roles) base := by
    unfold get_permissions
    rw [h]
    rfl
  refine ⟨hmain, fun hnil => ?_⟩
  rw [hmain, hnil]
  rfl

/-- C1 witness: concrete instance of the amended claim. -/
theorem C1_guild_fold_witness :
    pyTruthy (Channel.mk 1 (some 3) []).guild_id = true ∧
    get_permissions ⟨1, some 3, []⟩ 7 [] 5 = 5 :=
  ⟨by decide, (C1_guild_fold ⟨1, some 3, []⟩ 7 [] 5 (by decide)).2 rfl⟩

/-- C4: every channel whose guild_id is absent resolves to the
ADMINISTRATOR bitmask for every user, whatever overwrites it carries. -/
theorem C4_dm_admin (ch : Channel) (user_id : Nat) (roles : List Nat)
    (base : Nat) (h : ch.guild_id = none) :
    get_permissions ch user_id roles base = ADMINISTRATOR := by
  unfold get_permissions
  rw [h]
  rfl

/-- C4 witness: a DM channel with an overwrite attached still resolves to
ADMINISTRATOR. -/
theorem C4_dm_admin_witness :
    get_permissions ⟨1, none, [⟨7, OverwriteType.member, 2, 4⟩]⟩ 7 [7] 1 =
      ADMINISTRATOR :=
  C4_dm_admin ⟨1, none, [⟨7, OverwriteType.member, 2, 4⟩]⟩ 7 [7] 1 rfl

/-- C9: the per-overwrite deny-then-allow merge of get_permissions is not
commutative: a direct-member overwrite allowing bit 1 and a role overwrite
denying bit 1 give different results in the two processing orders. -/
theorem C9_order_matters :
    ∃ (base : Nat) (A B : PermissionOverwrite) (user_id g : Nat)
      (roles : List Nat),
      get_permissions ⟨1, some g, [A, B]⟩ user_id roles base ≠
        get_permissions ⟨1, some g, [B, A]⟩ user_id roles base :=
  ⟨0, ⟨5, OverwriteType.member, 1, 0⟩, ⟨9, OverwriteType.role, 0, 1⟩, 5, 1,
    [9], by decide⟩

/-! Paginator: claims C5, C2, C10, C3 and C6. -/

/-- C5 counterexample: a DOWN iterator given the cursor before = 0 still
fails to construct, although a before cursor was supplied: the source
guards with `any((before, after))` and Python treats the integer 0 as
falsy. -/
theorem C5_counterexample :
    (some 0 : Option Nat).isSome = true ∧
    MessageIterator.mkIter Direction.down false (some 0) none 100 =
      Except.error "Must specify either before or after for downward seeking" :=
  ⟨rfl, rfl⟩

/-- C5 amended: construction succeeds exactly when the direction is UP or
at least one cursor is truthy (supplied and non-zero); a DOWN iterator
with no truthy cursor fails with the configuration error. -/
theorem C5_down_needs_cursor (d : Direction) (bulk : Bool)
    (before after : Option Nat) (chunk_size : Nat) :
    (∃ st, MessageIterator.mkIter d bulk before after chunk_size =
        Except.ok st) ↔
      (d = Direction.up ∨ pyTruthy before = true ∨ pyTruthy after = true) := by
  unfold MessageIterator.mkIter
  cases d <;> cases hb : pyTruthy before <;> cases ha : pyTruthy after <;> simp

/-- The concrete channel history used by the pagination claims: 250
messages, oldest-to-newest, with ids 1 through 250. -/
def hist250 : List Nat := (List.range 250).map (fun i => i + 1)

/-- C2 (code defect): a DOWN fill starting from after = 1 over hist250
stores the reversed page 2..101 (oldest-to-newest) but leaves the after
cursor at none instead of the buffer's last id 101: the source line
`self.after == self._buffer[-1].id` compares instead of assigning.  The
following fetch therefore carries no cursor at all and returns the newest
page 250..151 rather than continuing forward from 101. -/
theorem C2_down_cursor_not_advanced :
    MessageIterator.fill hist250
        ⟨Direction.down, false, none, some 1, 100, []⟩ =
      Except.ok ⟨Direction.down, false, none, none, 100, List.range' 2 100⟩ ∧
    (List.range' 2 100).getLast? = some 101 ∧
    channels_messages_list hist250 none none 100 =
      (List.range' 151 100).reverse :=
  ⟨rfl, by decide, by decide⟩

/-- C10: every successful fill leaves the after cursor at none in both
directions, and after a DOWN fill the before cursor is none as well, so
the fetch issued by the next fill carries no cursor at all. -/
theorem C10_after_always_cleared (hist : List Nat) (st st' : MessageIterator)
    (h : st.fill hist = Except.ok st') :
    st'.after = none ∧
    (st.direction = Direction.down →
      st'.before = none ∧
      channels_messages_list hist st'.before st'.after st'.chunk_size =
        channels_messages_list hist none none st'.chunk_size) := by
  unfold MessageIterator.fill at h
  dsimp only at h
  split at h
  · exact Except.noConfusion h
  · split at h <;> rename_i hdir <;> cases h <;> simp [hdir]

/-- C10 witness: the DOWN fill of C2's input instantiates the invariant. -/
theorem C10_witness :
    (⟨Direction.down, false, none, none, 100, List.range' 2 100⟩ :
        MessageIterator).after = none ∧
    ((⟨Direction.down, false, none, some 1, 100, []⟩ :
        MessageIterator).direction = Direction.down →
      (⟨Direction.down, false, none, none, 100, List.range' 2 100⟩ :
          MessageIterator).before = none ∧
      channels_messages_list hist250
          (⟨Direction.down, false, none, none, 100, List.range' 2 100⟩ :
              MessageIterator).before
          (⟨Direction.down, false, none, none, 100, List.range' 2 100⟩ :
              MessageIterator).after
          (⟨Direction.down, false, none, none, 100, List.range' 2 100⟩ :
              MessageIterator).chunk_size =
        channels_messages_list hist250 none none
          (⟨Direction.down, false, none, none, 100, List.range' 2 100⟩ :
              MessageIterator).chunk_size) :=
  C10_after_always_cleared hist250
    ⟨Direction.down, false, none, some 1, 100, []⟩
    ⟨Direction.down, false, none, none, 100, List.range' 2 100⟩ rfl

/-- C3: every successful UP fill clears the after cursor and sets before
to the id of the last (oldest) message of the fetched page, which becomes
the buffer unreversed; and over hist250 an UP bulk iterator with
chunk_size 100 yields the pages 250..151, 150..51 and 50..1 (newest-first)
and then signals end-of-sequence on the fourth pull. -/
theorem C3_up_pagination :
    (∀ (hist : List Nat) (st st' : MessageIterator),
        st.direction = Direction.up → st.fill hist = Except.ok st' →
        st'.after = none ∧
        st'.buffer = channels_messages_list hist st.before st.after
          st.chunk_size ∧
        st'.before = some (st'.buffer.getLast?.getD 0)) ∧
    runYields hist250 4 ⟨Direction.up, true, none, none, 100, []⟩ =
      some [Yield.batch (List.range' 151 100).reverse,
            Yield.batch (List.range' 51 100).reverse,
            Yield.batch (List.range' 1 50).reverse] := by
  constructor
  · intro hist st st' hdir h
    unfold MessageIterator.fill at h
    dsimp only at h
    split at h
    · exact Except.noConfusion h
    · split at h <;> rename_i hd
      · cases h
        simp
      · rw [hdir] at hd
        exact Direction.noConfusion hd
  · rfl

/-- C3 witness: the first UP fill over hist250 instantiates the general
fill property. -/
theorem C3_witness :
    (⟨Direction.up, true, some 151, none, 100,
        (List.range' 151 100).reverse⟩ : MessageIterator).after = none ∧
    (⟨Direction.up, true, some 151, none, 100,
        (List.range' 151 100).reverse⟩ : MessageIterator).buffer =
      channels_messages_list hist250
        (⟨Direction.up, true, none, none, 100, []⟩ : MessageIterator).before
        (⟨Direction.up, true, none, none, 100, []⟩ : MessageIterator).after
        (⟨Direction.up, true, none, none, 100, []⟩ :
            MessageIterator).chunk_size ∧
    (⟨Direction.up, true, some 151, none, 100,
        (List.range' 151 100).reverse⟩ : MessageIterator).before =
      some ((⟨Direction.up, true, some 151, none, 100,
          (List.range' 151 100).reverse⟩ :
            MessageIterator).buffer.getLast?.getD 0) :=
  C3_up_pagination.1 hist250 ⟨Direction.up, true, none, none, 100, []⟩
    ⟨Direction.up, true, some 151, none, 100, (List.range' 151 100).reverse⟩
    rfl rfl

/-- C6: when invoked with an empty buffer (the only way the iterator
protocol invokes it), fill raises StopIteration exactly when the remote
fetch returns an empty page, and in that case the iterator state at the
raise equals the incoming state: cursors and buffer are unchanged. -/
theorem C6_exhaustion (hist : List Nat) (st : MessageIterator)
    (hbuf : st.buffer = []) :
    ((st.fill hist).isOk = false ↔
        channels_messages_list hist st.before st.after st.chunk_size = []) ∧
    (∀ e, st.fill hist = Except.error e → e = st) := by
  obtain ⟨d, bk, bef, aft,
    cs, buf⟩ := st
  dsimp only at hbuf
  subst hbuf
  unfold MessageIterator.fill
  dsimp only
  cases hpage : (channels_messages_list hist bef aft cs).isEmpty
  · have hne : channels_messages_list hist bef aft cs ≠ [] := by
      simpa using hpage
    simp only [hpage, Bool.false_eq_true, if_false]
    cases d
    · exact ⟨by simp [Except.isOk, Except.toBool, hne], fun e he => Except.noConfusion he⟩
    · exact ⟨by simp [Except.isOk, Except.toBool, hne], fun e he => Except.noConfusion he⟩
  · have hnil : channels_messages_list hist bef aft cs = [] := by
      simpa using hpage
    simp only [hpage, if_true]
    refine ⟨⟨fun _ => hnil, fun _ => rfl⟩, fun e he => ?_⟩
    cases he
    rw [hnil]

/-- C6 witness: over an empty channel history, the first fill of a fresh
UP iterator signals end-of-sequence and leaves the state untouched. -/
theorem C6_witness :
    ((MessageIterator.fill []
        ⟨Direction.up, false, none, none, 100, []⟩).isOk = false ↔
      channels_messages_list [] none none 100 = []) ∧
    (∀ e, MessageIterator.fill []
        ⟨Direction.up, false, none, none, 100, []⟩ = Except.error e →
      e = ⟨Direction.up, false, none, none, 100, []⟩) :=
  C6_exhaustion [] ⟨Direction.up, false, none, none, 100, []⟩ rfl

/-- Unfolding step of the chunks worker on a non-empty list with positive
fuel. -/
theorem chunksGo_step {α : Type} (n fuel : Nat) (x : α) (xs : List α) :
    chunksGo n (fuel + 1) (x :: xs) =
      ((x :: xs).take n) :: chunksGo n fuel ((x :: xs).drop n) := rfl

/-- The chunks worker on an empty list yields no chunks, for any fuel. -/
theorem chunksGo_nil {α : Type} (n fuel : Nat) :
    chunksGo n fuel ([] : List α) = [] := by
  cases fuel <;> rfl

/-- A non-empty list that fits in a single page is one chunk. -/
theorem chunksGo_last {α : Type} (n fuel : Nat) (y : α) (ys : List α)
    (h : (y :: ys).length ≤ n) :
    chunksGo n (fuel + 1) (y :: ys) = [y :: ys] := by
  rw [chunksGo_step, List.take_of_length_le h, List.drop_eq_nil_of_le h,
    chunksGo_nil]

/-- A list longer than one page but at most two pages splits into exactly
two chunks. -/
theorem chunksOf_pair {α : Type} (n : Nat) (l : List α)
    (h1 : n < l.length) (h2 : l.length ≤ n + n) :
    chunksOf n l = [l.take n, l.drop n] := by
  cases l with
  | nil => simp at h1
  | cons x xs =>
    unfold chunksOf
    rw [List.length_cons, chunksGo_step]
    congr 1
    have hlen : ((x :: xs).drop n).length = (x :: xs).length - n := by
      simp
    cases hd : (x :: xs).drop n with
    | nil =>
        rw [hd] at hlen
        simp only [List.length_nil, List.length_cons] at hlen h1
        omega
    | cons y ys =>
        cases hxl : xs.length with
        | zero =>
            simp only [List.length_cons, hxl] at h1 h2
            omega
        | succ m =>
            apply chunksGo_last
            rw [← hd, hlen]
            simp only [List.length_cons] at h2 ⊢
            omega

/-- C8: delete_messages issues one single-delete call per message for
lists of length 1 or 2, and for longer lists one bulk-delete call per
consecutive chunk of at most 100 ids; a 150-id list produces exactly two
bulk calls, of 100 and of 50 ids. -/
theorem C8_delete_batching (channel_id : Nat) (msgs : List Nat) :
    ((msgs.length = 1 ∨ msgs.length = 2) →
      delete_messages channel_id msgs =
        msgs.map (fun m => ApiCall.delete channel_id m)) ∧
    (2 < msgs.length →
      delete_messages channel_id msgs =
        (chunksOf 100 msgs).map (fun c => ApiCall.deleteBulk channel_id c)) ∧
    (msgs.length = 150 →
      delete_messages channel_id msgs =
        [ApiCall.deleteBulk channel_id (msgs.take 100),
         ApiCall.deleteBulk channel_id (msgs.drop 100)] ∧
      (msgs.take 100).length = 100 ∧ (msgs.drop 100).length = 50) := by
  refine ⟨fun h12 => ?_, fun hgt => ?_, fun h150 => ?_⟩
  · unfold delete_messages
    have hne : msgs.isEmpty = false := by
      cases msgs
      · simp at h12
      · rfl
    rw [hne]
    have hle : msgs.length ≤ 2 := by omega
    simp [hle]
  · unfold delete_messages
    have hne : msgs.isEmpty = false := by
      cases msgs
      · simp at hgt
      · rfl
    rw [hne]
    have hnle : ¬ msgs.length ≤ 2 := by omega
    simp [hnle]
  · have hgt : 2 < msgs.length := by omega
    unfold delete_messages
    have hne : msgs.isEmpty = false := by
      cases msgs
      · simp at h150
      · rfl
    rw [hne]
    have hnle : ¬ msgs.length ≤ 2 := by omega
    rw [chunksOf_pair 100 msgs (by omega) (by omega)]
    simp [hnle]
    omega

/-- C8 witness: concrete lists of lengths 2 and 150. -/
theorem C8_delete_batching_witness :
    delete_messages 9 [4, 5] = [ApiCall.delete 9 4, ApiCall.delete 9 5] ∧
    delete_messages 9 ((List.range 150).map (fun i => i + 1)) =
      [ApiCall.deleteBulk 9
          (((List.range 150).map (fun i => i + 1)).take 100),
       ApiCall.deleteBulk 9
          (((List.range 150).map (fun i => i + 1)).drop 100)] ∧
    ((((List.range 150).map (fun i => i + 1)).take 100).length = 100 ∧
      (((List.range 150).map (fun i => i + 1)).drop 100).length = 50) :=
  ⟨(C8_delete_batching 9 [4, 5]).1 (Or.inr rfl),
   ((C8_delete_batching 9 ((List.range 150).map (fun i => i + 1))).2.2
      (by simp)).1,
   ((C8_delete_batching 9 ((List.range 150).map (fun i => i + 1))).2.2
      (by simp)).2⟩

/-! Bulk and per-message runs agree on totals: claim C7. -/

/-- totalCount distributes over cons. -/
theorem totalCount_cons (y : Yield) (l : List Yield) :
    totalCount (y :: l) = yieldCount y + totalCount l := by
  simp [totalCount]

/-- runYields with no fuel has not terminated. -/
theorem runYields_zero (hist : List Nat) (st : MessageIterator) :
    runYields hist 0 st = none := rfl

/-- One unfolding of runYields. -/
theorem runYields_succ (hist : List Nat) (fuel : Nat)
    (st : MessageIterator) :
    runYields hist (fuel + 1) st =
      (match st.next hist with
       | Except.error _ => some []
       | Except.ok (y, st') =>
           (runYields hist fuel st').map (fun l => y :: l)) := rfl

/-- A successful fill preserves the bulk flag, the direction and the chunk
size, and produces a non-empty buffer. -/
theorem fill_ok_inv (hist : List Nat) (st st' : MessageIterator)
    (h : st.fill hist = Except.ok st') :
    st'.bulk = st.bulk ∧ st'.direction = st.direction ∧
    st'.chunk_size = st.chunk_size ∧ st'.buffer ≠ [] := by
  unfold MessageIterator.fill at h
  dsimp only at h
  split at h
  · exact Except.noConfusion h
  · rename_i hne
    split at h <;> cases h <;> refine ⟨rfl, rfl, rfl, ?_⟩ <;> simpa using hne

/-- Filling is independent of the bulk flag: toggling the flag before the
fill toggles it on the result and changes nothing else. -/
theorem fill_bulk_toggle (hist : List Nat) (st : MessageIterator)
    (b : Bool) :
    MessageIterator.fill hist { st with bulk := b } =
      (match st.fill hist with
       | Except.error e => Except.error { e with bulk := b }
       | Except.ok s => Except.ok { s with bulk := b }) := by
  obtain ⟨d, bk, bef, aft, cs, buf⟩ := st
  unfold MessageIterator.fill
  dsimp only
  by_cases hp : (channels_messages_list hist bef aft cs).isEmpty = true
  · rw [if_pos hp, if_pos hp]
  · rw [if_neg hp, if_neg hp]
    cases d <;> rfl

/-- With an empty buffer, a pull refills first and then dispatches on the
bulk flag. -/
theorem next_empty (hist : List Nat) (st : MessageIterator)
    (hbuf : st.buffer = []) :
    st.next hist =
      (match st.fill hist with
       | Except.error e => Except.error e
       | Except.ok st' =>
           if st'.bulk then
             Except.ok (Yield.batch st'.buffer, { st' with buffer := [] })
           else
             match st'.buffer.getLast? with
             | some m =>
                 Except.ok (Yield.one m,
                   { st' with buffer := st'.buffer.dropLast })
             | none => Except.error st') := by
  unfold MessageIterator.next
  rw [hbuf]
  rfl

/-- With a non-empty buffer and bulk off, a pull pops the last buffered
message and touches nothing else. -/
theorem next_cons_single (hist : List Nat) (st : MessageIterator) (m : Nat)
    (hbuf : st.buffer.getLast? = some m) (hbulk : st.bulk = false) :
    st.next hist =
      Except.ok (Yield.one m, { st with buffer := st.buffer.dropLast }) := by
  have hne : st.buffer.isEmpty = false := by
    cases hb : st.buffer
    · rw [hb] at hbuf
      exact Option.noConfusion hbuf
    · rfl
  unfold MessageIterator.next
  simp only [hne, Bool.false_eq_true, if_false, hbulk, hbuf]

/-- With a non-empty buffer and bulk on, a pull hands the whole buffer over
and empties it. -/
theorem next_cons_bulk (hist : List Nat) (st : MessageIterator)
    (hbuf : st.buffer.isEmpty = false) (hbulk : st.bulk = true) :
    st.next hist =
      Except.ok (Yield.batch st.buffer, { st with buffer := [] }) := by
  unfold MessageIterator.next
  simp only [hbuf, Bool.false_eq_true, if_false, hbulk, if_true]

/-- Inversion of a successful pull in per-message mode: the yield is a
single message and the bulk flag stays off. -/
theorem next_ok_single_inv (hist : List Nat) (st : MessageIterator)
    (y : Yield) (st' : MessageIterator) (hbulk : st.bulk = false)
    (h : st.next hist = Except.ok (y, st')) :
    (∃ m, y = Yield.one m) ∧ st'.bulk = false := by
  unfold MessageIterator.next at h
  cases hfill : (if st.buffer.isEmpty then st.fill hist else Except.ok st)
      with
  | error e =>
      rw [hfill] at h
      exact Except.noConfusion h
  | ok s =>
      rw [hfill] at h
      have hsbulk : s.bulk = false := by
        by_cases hb : st.buffer.isEmpty = true
        · rw [if_pos hb] at hfill
          exact (fill_ok_inv hist st s hfill).1.trans hbulk
        · rw [if_neg hb] at hfill
          cases hfill
          exact hbulk
      simp only [hsbulk, Bool.false_eq_true, if_false] at h
      cases hgl : s.buffer.getLast? with
      | none =>
          rw [hgl] at h
          exact Except.noConfusion h
      | some m =>
          rw [hgl] at h
          cases h
          exact ⟨⟨m, rfl⟩, rfl⟩

/-- Inversion of a successful pull in bulk mode: the yield is a whole
batch and the bulk flag stays on. -/
theorem next_ok_bulk_inv (hist : List Nat) (st : MessageIterator)
    (y : Yield) (st' : MessageIterator) (hbulk : st.bulk = true)
    (h : st.next hist = Except.ok (y, st')) :
    (∃ b, y = Yield.batch b) ∧ st'.bulk = true := by
  unfold MessageIterator.next at h
  cases hfill : (if st.buffer.isEmpty then st.fill hist else Except.ok st)
      with
  | error e =>
      rw [hfill] at h
      exact Except.noConfusion h
  | ok s =>
      rw [hfill] at h
      have hsbulk : s.bulk = true := by
        by_cases hb : st.buffer.isEmpty = true
        · rw [if_pos hb] at hfill
          exact (fill_ok_inv hist st s hfill).1.trans hbulk
        · rw [if_neg hb] at hfill
          cases hfill
          exact hbulk
      simp only [hsbulk, if_true] at h
      cases h
      exact ⟨⟨s.buffer, rfl⟩, rfl⟩

/-- Every terminated per-message run yields only single messages. -/
theorem runYields_ones (hist : List Nat) :
    ∀ (fuel : Nat) (st : MessageIterator) (l : List Yield),
      st.bulk = false → runYields hist fuel st = some l →
      ∀ y ∈ l, ∃ m, y = Yield.one m := by
  intro fuel
  induction fuel with
  | zero =>
      intro st l _ h
      exact Option.noConfusion h
  | succ fuel ih =>
      intro st l hbulk h
      rw [runYields_succ] at h
      cases hnx : st.next hist with
      | error e =>
          rw [hnx] at h
          cases h
          intro y hy
          simp at hy
      | ok p =>
          obtain ⟨y, st'⟩ := p
          rw [hnx] at h
          dsimp only at h
          cases hr : runYields hist fuel st' with
          | none =>
              rw [hr] at h
              exact Option.noConfusion h
          | some tail =>
              rw [hr] at h
              dsimp only [Option.map] at h
              cases h
              obtain ⟨hy, hb'⟩ := next_ok_single_inv hist st y st' hbulk hnx
              intro z hz
              rcases List.mem_cons.mp hz with hz | hz
              · exact hz ▸ hy
              · exact ih st' tail hb' hr z hz

/-- Every terminated bulk run yields only whole batches. -/
theorem runYields_batches (hist : List Nat) :
    ∀ (fuel : Nat) (st : MessageIterator) (l : List Yield),
      st.bulk = true → runYields hist fuel st = some l →
      ∀ y ∈ l, ∃ b, y = Yield.batch b := by
  intro fuel
  induction fuel with
  | zero =>
      intro st l _ h
      exact Option.noConfusion h
  | succ fuel ih =>
      intro st l hbulk h
      rw [runYields_succ] at h
      cases hnx : st.next hist with
      | error e =>
          rw [hnx] at h
          cases h
          intro y hy
          simp at hy
      | ok p =>
          obtain ⟨y, st'⟩ := p
          rw [hnx] at h
          dsimp only at h
          cases hr : runYields hist fuel st' with
          | none =>
              rw [hr] at h
              exact Option.noConfusion h
          | some tail =>
              rw [hr] at h
              dsimp only [Option.map] at h
              cases h
              obtain ⟨hy, hb'⟩ := next_ok_bulk_inv hist st y st' hbulk hnx
              intro z hz
              rcases List.mem_cons.mp hz with hz | hz
              · exact hz ▸ hy
              · exact ih st' tail hb' hr z hz

/-- Filling depends on neither bulk flag value: the two fills differ only
in the bulk field of the resulting state. -/
theorem fill_bulk_swap (hist : List Nat) (d : Direction) (bk b : Bool)
    (bef aft : Option Nat) (cs : Nat) (buf : List Nat) :
    MessageIterator.fill hist ⟨d, b, bef, aft, cs, buf⟩ =
      (match MessageIterator.fill hist ⟨d, bk, bef, aft, cs, buf⟩ with
       | Except.error e => Except.error { e with bulk := b }
       | Except.ok s => Except.ok { s with bulk := b }) := by
  unfold MessageIterator.fill
  dsimp only
  by_cases hp : (channels_messages_list hist bef aft cs).isEmpty = true
  · rw [if_pos hp, if_pos hp]
  · rw [if_neg hp, if_neg hp]
    cases d <;> rfl

/-- Consuming a pre-filled buffer in per-message mode takes exactly one
pull per buffered message, yields that many single messages, and arrives
at the same state with an empty buffer. -/
theorem runYields_drain (hist : List Nat) :
    ∀ (fuel : Nat) (st : MessageIterator) (l : List Yield),
      st.bulk = false →
      runYields hist fuel st = some l →
      ∃ l', runYields hist (fuel - st.buffer.length)
            { st with buffer := [] } = some l' ∧
          totalCount l = st.buffer.length + totalCount l' := by
  intro fuel
  induction fuel with
  | zero =>
      intro st l _ h
      exact Option.noConfusion h
  | succ fuel ih =>
      intro st l hbulk h
      obtain ⟨d, bk, bef, aft, cs, buf⟩ := st
      dsimp only at hbulk
      subst hbulk
      cases buf with
      | nil =>
          refine ⟨l, ?_, by simp⟩
          simpa using h
      | cons z zs =>
          cases hgl : (z :: zs).getLast? with
          | none => simp at hgl
          | some m =>
              rw [runYields_succ, next_cons_single hist
                  ⟨d, false, bef, aft, cs, z :: zs⟩ m hgl rfl] at h
              dsimp only at h
              cases hr : runYields hist fuel
                  ⟨d, false, bef, aft, cs, (z :: zs).dropLast⟩ with
              | none =>
                  rw [hr] at h
                  exact Option.noConfusion h
              | some tail =>
                  rw [hr] at h
                  dsimp only [Option.map] at h
                  cases h
                  obtain ⟨l', hrun, hcount⟩ :=
                    ih ⟨d, false, bef, aft, cs, (z :: zs).dropLast⟩ tail rfl hr
                  have hlen : ((z :: zs).dropLast).length = zs.length := by
                    simp
                  refine ⟨l', ?_, ?_⟩
                  · rw [hlen] at hrun
                    simpa [Nat.succ_sub_succ] using hrun
                  · rw [hlen] at hcount
                    simp only [totalCount_cons, yieldCount, List.length_cons]
                    omega

/-- A pull on an empty buffer propagates a failed fill as StopIteration. -/
theorem next_empty_error (hist : List Nat) (st e : MessageIterator)
    (hbuf : st.buffer = []) (hfill : st.fill hist = Except.error e) :
    st.next hist = Except.error e := by
  rw [next_empty hist st hbuf, hfill]

/-- A pull on an empty buffer in per-message mode pops the last message of
the freshly filled buffer. -/
theorem next_empty_ok_single (hist : List Nat) (st s : MessageIterator)
    (m : Nat) (hbuf : st.buffer = []) (hfill : st.fill hist = Except.ok s)
    (hbulk : s.bulk = false) (hgl : s.buffer.getLast? = some m) :
    st.next hist =
      Except.ok (Yield.one m, { s with buffer := s.buffer.dropLast }) := by
  rw [next_empty hist st hbuf, hfill]
  dsimp only
  simp only [hbulk, Bool.false_eq_true, if_false, hgl]

/-- A pull on an empty buffer in bulk mode hands the freshly filled buffer
over whole. -/
theorem next_empty_ok_bulk (hist : List Nat) (st s : MessageIterator)
    (hbuf : st.buffer = []) (hfill : st.fill hist = Except.ok s)
    (hbulk : s.bulk = true) :
    st.next hist =
      Except.ok (Yield.batch s.buffer, { s with buffer := [] }) := by
  rw [next_empty hist st hbuf, hfill]
  dsimp only
  simp only [hbulk, if_true]

/-- Over the same history and scan parameters, a terminated per-message
run and a terminated bulk run carry the same total number of messages. -/
theorem runYields_total_eq (hist : List Nat) :
    ∀ (f2 f1 : Nat) (d : Direction) (cb ca : Option Nat) (ch : Nat)
      (l1 l2 : List Yield),
      runYields hist f1 ⟨d, false, cb, ca, ch, []⟩ = some l1 →
      runYields hist f2 ⟨d, true, cb, ca, ch, []⟩ = some l2 →
      totalCount l1 = totalCount l2 := by
  intro f2
  induction f2 with
  | zero =>
      intro f1 d cb ca ch l1 l2 _ h2
      exact Option.noConfusion h2
  | succ f2 ih =>
      intro f1 d cb ca ch l1 l2 h1 h2
      cases f1 with
      | zero => exact Option.noConfusion h1
      | succ g =>
          cases hfill : MessageIterator.fill hist ⟨d, false, cb, ca, ch, []⟩
              with
          | error e =>
              have hfill2 : MessageIterator.fill hist
                  ⟨d, true, cb, ca, ch, []⟩ =
                    Except.error { e with bulk := true } := by
                rw [fill_bulk_swap hist d false true cb ca ch [], hfill]
              rw [runYields_succ,
                next_empty_error hist _ _ rfl hfill] at h1
              rw [runYields_succ,
                next_empty_error hist _ _ rfl hfill2] at h2
              dsimp only at h1 h2
              cases h1
              cases h2
              rfl
          | ok s =>
              have hinv := fill_ok_inv hist ⟨d, false, cb, ca, ch, []⟩ s hfill
              obtain ⟨ds, bs, befs, afts, css, bufs⟩ := s
              obtain ⟨hb, hd, hc, hne⟩ := hinv
              dsimp only at hb hd hc hne
              subst hb
              subst hd
              subst hc
              have hfill2 : MessageIterator.fill hist
                  ⟨ds, true, cb, ca, css, []⟩ =
                    Except.ok ⟨ds, true, befs, afts, css, bufs⟩ := by
                rw [fill_bulk_swap hist ds false true cb ca css [], hfill]
              cases hgl : bufs.getLast? with
              | none =>
                  rw [List.getLast?_eq_none_iff] at hgl
                  exact absurd hgl hne
              | some m =>
                  rw [runYields_succ, next_empty_ok_single hist _ _ m rfl
                    hfill rfl hgl] at h1
                  rw [runYields_succ,
                    next_empty_ok_bulk hist _ _ rfl hfill2 rfl] at h2
                  dsimp only at h1 h2
                  cases hr1 : runYields hist g
                      ⟨ds, false, befs, afts, css, bufs.dropLast⟩ with
                  | none =>
                      rw [hr1] at h1
                      exact Option.noConfusion h1
                  | some tail =>
                      rw [hr1] at h1
                      dsimp only [Option.map] at h1
                      cases h1
                      cases hr2 : runYields hist f2
                          ⟨ds, true, befs, afts, css, []⟩ with
                      | none =>
                          rw [hr2] at h2
                          exact Option.noConfusion h2
                      | some rest2 =>
                          rw [hr2] at h2
                          dsimp only [Option.map] at h2
                          cases h2
                          obtain ⟨l1', hrun1, hcnt1⟩ := runYields_drain hist g
                            ⟨ds, false, befs, afts, css, bufs.dropLast⟩ tail
                            rfl hr1
                          dsimp only at hrun1 hcnt1
                          have htot := ih (g - bufs.dropLast.length) ds befs
                            afts css l1' rest2 hrun1 hr2
                          have hlen : bufs.dropLast.length = bufs.length - 1 :=
                            by simp
                          have hpos : 0 < bufs.length :=
                            List.length_pos.mpr hne
                          simp only [totalCount_cons, yieldCount]
                          omega

/-- C7: for the same history and scan parameters, a bulk iterator yields
whole pages as batches, a per-message iterator yields single messages, and
when both runs terminate the total number of messages is the same. -/
theorem C7_bulk_equals_single (hist : List Nat) (f1 f2 : Nat)
    (d : Direction) (cb ca : Option Nat) (ch : Nat) (l1 l2 : List Yield)
    (h1 : runYields hist f1 ⟨d, false, cb, ca, ch, []⟩ = some l1)
    (h2 : runYields hist f2 ⟨d, true, cb, ca, ch, []⟩ = some l2) :
    totalCount l1 = totalCount l2 ∧
    (∀ y ∈ l2, ∃ b, y = Yield.batch b) ∧
    (∀ y ∈ l1, ∃ m, y = Yield.one m) :=
  ⟨runYields_total_eq hist f2 f1 d cb ca ch l1 l2 h1 h2,
   runYields_batches hist f2 ⟨d, true, cb, ca, ch, []⟩ l2 rfl h2,
   runYields_ones hist f1 ⟨d, false, cb, ca, ch, []⟩ l1 rfl h1⟩

/-- C7 witness: over the history 1, 2, 3 with chunk size 2, the
per-message UP run yields three single messages and the bulk UP run two
batches carrying three messages in total. -/
theorem C7_witness :
    totalCount [Yield.one 2, Yield.one 3, Yield.one 1] =
      totalCount [Yield.batch [3, 2], Yield.batch [1]] ∧
    (∀ y ∈ [Yield.batch [3, 2], Yield.batch [1]], ∃ b, y = Yield.batch b) ∧
    (∀ y ∈ [Yield.one 2, Yield.one 3, Yield.one 1], ∃ m, y = Yield.one m) :=
  C7_bulk_equals_single [1, 2, 3] 4 3 Direction.up none none 2
    [Yield.one 2, Yield.one 3, Yield.one 1]
    [Yield.batch [3, 2], Yield.batch [1]] (by decide) (by decide)
